import Mathlib

/-!
Verification of the Zypher archive packaging engine.

Shallow embedding of `src/core/packager/packager.py`,
`src/core/unpacker/unpacker.py` and `src/core/packager/batch_packager.py`.
Files are byte lists (`List Nat`, each entry < 256 where it matters); the
zstd compression library and SHA-256 are external collaborators and appear
as explicit function parameters, with the zstd lossless law taken as a
hypothesis where a claim needs it.
-/

namespace Zypher

/-- A shared compression dictionary blob (`zypher.dict` bytes). -/
def Dict := List Nat

/-- `Packager.SUPPORTED_FORMATS` from packager.py. -/
def SUPPORTED_FORMATS : List String :=
  [".pdf", ".jpg", ".jpeg", ".png", ".tiff", ".docx", ".xlsx", ".pptx", ".txt", ".csv"]

/-- `Packager.COMPRESSION_LEVELS` from packager.py: label to numeric zstd level. -/
def COMPRESSION_LEVELS : List (String × Nat) :=
  [("low", 3), ("medium", 10), ("high", 19), ("ultra", 22)]

/-- `COMPRESSION_LEVELS.get(label, 19)` as used at packager.py line 97. -/
def levelFor (label : String) : Nat :=
  (COMPRESSION_LEVELS.lookup label).getD 19

/-- `Packager.MAGIC = b'ZPKG'` as bytes. -/
def MAGIC : List Nat := [90, 80, 75, 71]

/-- `b'ZPKV'`, the second magic accepted by the unpacker. -/
def MAGIC_VISUAL : List Nat := [90, 80, 75, 86]

/-- `Packager.VERSION`. -/
def VERSION : Nat := 1

/-- `Packager._get_chunk_size` from packager.py lines 66-72. -/
def get_chunk_size (file_size : Nat) : Nat :=
  if file_size < 10000000 then 65536
  else if file_size < 100000000 then 524288
  else 1048576

/-- The zstd compression parameters assembled by `Packager._build_compressor`
(packager.py lines 166-180). -/
structure CompressionParams where
  level : Nat
  enable_ldm : Bool
  ldm_hash_log : Nat
  threads : Int
  deriving Repr, DecidableEq

/-- `Packager._build_compressor`: LDM only above the 1MB threshold, hash log 20
when LDM is on, multithreading disabled when progress is tracked. -/
def build_compressor (level : Nat) (file_size : Nat) (track_progress : Bool) :
    CompressionParams :=
  let use_ldm := file_size > 1000000
  { level := level
    enable_ldm := use_ldm
    ldm_hash_log := if use_ldm then 20 else 0
    threads := if track_progress then 0 else -1 }

/-- The manifest dict built by `compress_file` (packager.py lines 100-107);
`checksum` is optional because the unpacker reads it with `.get` and other
producers may omit it (the packager always records one). -/
structure Manifest where
  original_filename : String
  original_size : Nat
  compression_level : String
  format : String
  checksum : Option String
  has_dict : Bool
  deriving Repr, DecidableEq

/-- The structured content of one archive: magic, version, manifest, compressed
payload.  `serializeArchive` below gives its on-disk byte layout. -/
structure Archive where
  magic : List Nat
  version : Nat
  manifest : Manifest
  payload : List Nat
  deriving Repr, DecidableEq

/-- The external zstd streaming library as seen by this code: a compress
function (level, LDM flag, optional dictionary) and a decompress function
(optional dictionary), `none` meaning a zstd decode error. -/
structure Codec where
  compressBytes : Nat → Bool → Option Dict → List Nat → List Nat
  decompressBytes : Option Dict → List Nat → Option (List Nat)

/-- `Path(name).suffix.lower()` for ordinary file names: the last
dot-separated extension with its leading dot, lowercased; empty when the
name has no dot. -/
def fileSuffix (name : String) : String :=
  let cs := name.toList
  if '.' ∈ cs then
    String.mk ('.' :: ((cs.reverse.takeWhile (fun c => c ≠ '.')).reverse.map Char.toLower))
  else ""

/-- The permanent input errors `compress_file` raises as `ValueError`
(packager.py lines 83-94). -/
inductive PackError where
  | unsupportedFormat (ext : String)
  | emptyFile
  | fileTooLarge
  deriving Repr, DecidableEq

/-- The progress-callback invocations of the streaming loop in `compress_file`
(packager.py lines 126-134): after each chunk of at most `cs` bytes the
callback receives (cumulative bytes read, total size). -/
def packProgress (cs : Nat) (l : List Nat) (acc total : Nat) : List (Nat × Nat) :=
  if h : l = [] ∨ cs = 0 then []
  else
    (acc + min cs l.length, total) ::
      packProgress cs (l.drop cs) (acc + min cs l.length) total
termination_by l.length
decreasing_by
  push_neg at h
  have hl : 0 < l.length := List.length_pos.mpr h.1
  simp [List.length_drop]
  omega

/-- Everything one successful `compress_file` call produces and does:
the archive value, the compressor parameters used, the chosen chunk size and
the progress-callback trace. -/
structure PackRun where
  archive : Archive
  params : CompressionParams
  chunkSize : Nat
  progress : List (Nat × Nat)
  deriving Repr

/-- `Packager.compress_file` (packager.py lines 74-157) on a file with the
given name and byte content.  `hash` is SHA-256 as hex (`_checksum_file`),
`cached` the dictionary loaded at init, `maxFileSize` the instance byte
ceiling.  Fallible: returns the `ValueError` class of permanent failures. -/
def compress_file (codec : Codec) (hash : List Nat → String) (cached : Option Dict)
    (filename : String) (content : List Nat) (compression_level : String)
    (track_progress : Bool) (maxFileSize : Nat) : Except PackError PackRun :=
  let ext := fileSuffix filename
  if ext ∉ SUPPORTED_FORMATS then .error (.unsupportedFormat ext)
  else
    let original_size := content.length
    if original_size = 0 then .error .emptyFile
    else if original_size > maxFileSize then .error .fileTooLarge
    else
      let checksum := hash content
      let level := levelFor compression_level
      let params := build_compressor level original_size track_progress
      let manifest : Manifest :=
        { original_filename := filename
          original_size := original_size
          compression_level := compression_level
          format := (ext.drop 1)
          checksum := some checksum
          has_dict := cached.isSome }
      let chunk_size := get_chunk_size original_size
      let payload := codec.compressBytes level params.enable_ldm cached content
      .ok
        { archive := { magic := MAGIC, version := VERSION, manifest := manifest, payload := payload }
          params := params
          chunkSize := chunk_size
          progress := if track_progress then packProgress chunk_size content 0 original_size else [] }

/-! ## Unpacker (src/core/unpacker/unpacker.py) -/

/-- Which decompressor `Unpacker._build_decompressor` returns: one bound to the
cached dictionary, or a plain dictionary-less one. -/
inductive DecompKind where
  | withDict
  | plain
  deriving Repr, DecidableEq

/-- `Unpacker._build_decompressor` (unpacker.py lines 106-110): the cached
dictionary is used only when the manifest flag is set AND a dictionary is
cached; otherwise a plain decompressor is returned. -/
def build_decompressor (has_dict : Bool) (cached : Option Dict) : DecompKind :=
  if has_dict ∧ cached.isSome then .withDict else .plain

/-- The dictionary a decompressor of the given kind hands to zstd. -/
def dictFor (dk : DecompKind) (cached : Option Dict) : Option Dict :=
  match dk with
  | .withDict => cached
  | .plain => none

/-- The errors `unpack` can raise.  `missingDictionary` is the spec's
`MissingDictionaryError`; it is included so the claim about it is statable,
the code itself never produces it. -/
inductive UnpackError where
  | badMagic
  | missingDictionary
  | decodeError
  | checksumMismatch
  deriving Repr, DecidableEq

/-- Observable events of one `unpack` call, in program order. -/
inductive UEvent where
  | madeTemp
  | usedDecompressor (k : DecompKind)
  | verifyOk
  | verifyFail
  | warnNoChecksum
  | renamedToFinal
  deriving Repr, DecidableEq

/-- Files left on disk by one `unpack` call: the temp file and the final
output path `out_dir / manifest['original_filename']`. -/
structure UnpackFs where
  tmpExists : Bool
  finalExists : Bool
  deriving Repr, DecidableEq

/-- Result of one `unpack` call: the outcome (restored bytes on success),
the event trace, and which files remain on disk afterwards. -/
structure UnpackRun where
  result : Except UnpackError (List Nat)
  events : List UEvent
  fs : UnpackFs
  deriving Repr

/-- `Unpacker.unpack` (unpacker.py lines 41-104): check magic, read the
manifest, build the decompressor from the `has_dict` flag, stream-decompress
into a temp file, verify the SHA-256 when the manifest records one (mismatch
raises and the `finally` block removes the temp file), then rename the temp
file to the final path.  `decode` is the zstd side, `hash` is SHA-256 hex. -/
def unpack (decode : Option Dict → List Nat → Option (List Nat))
    (hash : List Nat → String) (cached : Option Dict) (a : Archive) : UnpackRun :=
  if a.magic ≠ MAGIC ∧ a.magic ≠ MAGIC_VISUAL then
    { result := .error .badMagic, events := [], fs := ⟨false, false⟩ }
  else
    let dk := build_decompressor a.manifest.has_dict cached
    match decode (dictFor dk cached) a.payload with
    | none =>
        { result := .error .decodeError
          events := [.usedDecompressor dk, .madeTemp]
          fs := ⟨false, false⟩ }
    | some restored =>
        match a.manifest.checksum with
        | some stored =>
            if hash restored = stored then
              { result := .ok restored
                events := [.usedDecompressor dk, .madeTemp, .verifyOk, .renamedToFinal]
                fs := ⟨false, true⟩ }
            else
              { result := .error .checksumMismatch
                events := [.usedDecompressor dk, .madeTemp, .verifyFail]
                fs := ⟨false, false⟩ }
        | none =>
            { result := .ok restored
              events := [.usedDecompressor dk, .madeTemp, .warnNoChecksum, .renamedToFinal]
              fs := ⟨false, true⟩ }

/-! ## Retry policy (`Packager.compress_with_retry`, packager.py lines 183-225) -/

/-- What one `compress_file` attempt does, as seen by the retry wrapper:
succeed, raise `ValueError` (the permanent class), or raise any other
exception (transient).  Payloads are the result value / exception message;
classification never looks at them. -/
inductive AttemptResult where
  | ok (r : Nat)
  | valueError (msg : String)
  | otherError (msg : String)
  deriving Repr, DecidableEq

/-- How `compress_with_retry` ends: return, re-raise the `ValueError`,
raise the last transient error after the loop, or (when `max_retries = 0`)
execute `raise last_error` with `last_error` still `None`. -/
inductive RetryOutcome where
  | ok (r : Nat)
  | raisedValueError (msg : String)
  | raisedLast (msg : String)
  | raisedNone
  deriving Repr, DecidableEq

/-- One `compress_with_retry` run: its outcome, the sequence of
`time.sleep` delays in order, and how many attempts were made. -/
structure RetryRun where
  outcome : RetryOutcome
  sleeps : List ℚ
  attemptsMade : Nat
  deriving Repr, DecidableEq

/-- The `for attempt in range(1, max_retries + 1)` loop from attempt `idx`
on, with the current `retry_delay`: success and `ValueError` return/raise at
once; any other error sleeps `delay`, doubles it and continues while
`idx < maxRetries`, and raises the last error when attempts are exhausted. -/
def retryFrom (attempt : Nat → AttemptResult) (maxRetries idx : Nat) (delay : ℚ) :
    RetryRun :=
  match attempt idx with
  | .ok r => ⟨.ok r, [], 1⟩
  | .valueError m => ⟨.raisedValueError m, [], 1⟩
  | .otherError m =>
      if h : idx < maxRetries then
        let rest := retryFrom attempt maxRetries (idx + 1) (delay * 2)
        ⟨rest.outcome, delay :: rest.sleeps, rest.attemptsMade + 1⟩
      else ⟨.raisedLast m, [], 1⟩
termination_by maxRetries - idx

/-- `Packager.compress_with_retry`: run attempts `1 .. max_retries`; with a
zero budget the loop body never runs and `raise last_error` raises `None`. -/
def compress_with_retry (attempt : Nat → AttemptResult) (max_retries : Nat)
    (retry_delay : ℚ) : RetryRun :=
  if max_retries = 0 then ⟨.raisedNone, [], 0⟩
  else retryFrom attempt max_retries 1 retry_delay

/-! ## Batch orchestrator (src/core/packager/batch_packager.py) -/

/-- The success record `_compress_one` returns for one file (the
`compress_file` stats dict plus `input_file`). -/
structure BatchSuccess where
  input_file : String
  original_size : Nat
  compressed_size : Nat
  deriving Repr, DecidableEq

/-- A recorded failure entry `{'file': ..., 'error': ...}` from `_run`. -/
structure BatchFailure where
  file : String
  error : String
  deriving Repr, DecidableEq

/-- The summary dict from `_build_summary` (batch_packager.py lines 172-201).
`processing_time` is wall-clock and not modelled. -/
structure BatchSummary where
  success : Bool
  total : Nat
  succeeded : Nat
  failed : Nat
  failures : List BatchFailure
  results : List BatchSuccess
  total_original_size : Nat
  total_compressed_size : Nat
  overall_saving_percent : ℚ
  deriving Repr, DecidableEq

/-- `BatchPackager._build_summary`. -/
def build_summary (results : List BatchSuccess) (failures : List BatchFailure) :
    BatchSummary :=
  let total_original := (results.map BatchSuccess.original_size).sum
  let total_compressed := (results.map BatchSuccess.compressed_size).sum
  { success := failures.length = 0
    total := results.length + failures.length
    succeeded := results.length
    failed := failures.length
    failures := failures
    results := results
    total_original_size := total_original
    total_compressed_size := total_compressed
    overall_saving_percent :=
      if 0 < total_original then (1 - (total_compressed : ℚ) / (total_original : ℚ)) * 100
      else 0 }

/-- The `as_completed` drain loop of `_run` (batch_packager.py lines 129-155):
jobs are given in completion order, each as its path and its outcome —
`future.result()` either returns a success record or raises, and a raise is
caught and appended to the failure list as a `(path, error)` entry. -/
def batch_drain (jobs : List (String × Except String BatchSuccess))
    (results : List BatchSuccess) (failures : List BatchFailure) :
    List BatchSuccess × List BatchFailure :=
  match jobs with
  | [] => (results, failures)
  | (inp, out) :: rest =>
      match out with
      | .ok r => batch_drain rest (results ++ [r]) failures
      | .error e => batch_drain rest results (failures ++ [⟨inp, e⟩])

/-- `BatchPackager._run`: drain all job outcomes, then build the summary. -/
def run_batch (jobs : List (String × Except String BatchSuccess)) : BatchSummary :=
  let rf := batch_drain jobs [] []
  build_summary rf.1 rf.2

/-- `BatchPackager.compress_directory` at the orchestration level
(batch_packager.py lines 54-85): raises `ValueError` iff the input directory
does not exist; otherwise every per-job exception is already a recorded
outcome inside `jobs` and the call returns the summary normally. -/
def compress_directory (input_dir_exists : Bool)
    (jobs : List (String × Except String BatchSuccess)) :
    Except String BatchSummary :=
  if input_dir_exists then .ok (run_batch jobs)
  else .error "Input directory not found"

/-! ## On-disk layout (`compress_file` lines 110-136, `unpack` lines 48-54) -/

/-- Big-endian 4-byte encoding of `struct.pack('>L', n)`. -/
def be32 (n : Nat) : List Nat :=
  [n / 16777216 % 256, n / 65536 % 256, n / 256 % 256, n % 256]

/-- UTF-8 bytes of a string, as `.encode('utf-8')`. -/
def utf8Bytes (s : String) : List Nat :=
  s.toUTF8.toList.map (fun b => b.toNat)

/-- JSON string escaping as `json.dumps` applies to the quote and backslash
(the only escapes the manifest fields can need here). -/
def jsonEscapeChar (c : Char) : String :=
  if c = '\\' then "\\\\" else if c = '"' then "\\\"" else String.singleton c

/-- Escape a string for embedding in a JSON string literal. -/
def jsonEscape (s : String) : String :=
  String.join (s.toList.map jsonEscapeChar)

/-- A JSON string literal. -/
def jsonStr (s : String) : String := "\"" ++ jsonEscape s ++ "\""

/-- The `checksum` manifest value: a JSON string, or `null` when absent. -/
def jsonChecksum : Option String → String
  | some c => jsonStr c
  | none => "null"

/-- `json.dumps(manifest)` for the manifest dict of `compress_file`:
keys in insertion order with the default `", "` and `": "` separators. -/
def encodeManifest (m : Manifest) : String :=
  "\x7b" ++ "\"original_filename\"" ++ ": " ++ jsonStr m.original_filename ++ ", "
    ++ "\"original_size\"" ++ ": " ++ toString m.original_size ++ ", "
    ++ "\"compression_level\"" ++ ": " ++ jsonStr m.compression_level ++ ", "
    ++ "\"format\"" ++ ": " ++ jsonStr m.format ++ ", "
    ++ "\"checksum\"" ++ ": " ++ jsonChecksum m.checksum ++ ", "
    ++ "\"has_dict\"" ++ ": " ++ (if m.has_dict then "true" else "false") ++ "\x7d"

/-- The manifest bytes written to disk. -/
def manifestBytes (m : Manifest) : List Nat := utf8Bytes (encodeManifest m)

/-- The byte stream `compress_file` writes (packager.py lines 116-131):
magic, then `struct.pack('>BL', version, len(manifest_bytes))`, then the
manifest bytes, then the compressed payload to end of file. -/
def serializeArchive (a : Archive) : List Nat :=
  a.magic ++ [a.version % 256] ++ be32 (manifestBytes a.manifest).length
    ++ manifestBytes a.manifest ++ a.payload

/-! ## Atomic-commit discipline of `compress_file` (packager.py lines 110-164)

The body of `compress_file` as the sequence of its externally visible
steps, so that termination at an arbitrary point can be stated.  The
`finally` block (lines 162-164) runs afterwards and removes the temp file
when `tmp_path` is still set and the file exists; `shutil.move` plus the
`tmp_path = None` reset is one step, and the rename itself is atomic. -/

/-- One step of `compress_file` in program order. -/
inductive PackOp where
  | checkFormat
  | checkSizeLimits
  | computeChecksum
  | makeTempBesideDest
  | writeHeader
  | writeChunk
  | renameTempToDest
  deriving Repr, DecidableEq

/-- The step sequence of a `compress_file` call streaming `numChunks` chunks. -/
def packOps (numChunks : Nat) : List PackOp :=
  [.checkFormat, .checkSizeLimits, .computeChecksum, .makeTempBesideDest, .writeHeader]
    ++ List.replicate numChunks .writeChunk ++ [.renameTempToDest]

/-- Which files exist: the temp file and the destination path. -/
structure PackFs where
  destExists : Bool
  tmpExists : Bool
  deriving Repr, DecidableEq

/-- Effect of one step on the two paths: `tempfile.mkstemp` creates the temp
file, `shutil.move` atomically turns the temp file into the destination;
no other step touches either path. -/
def applyPackOp (s : PackFs) : PackOp → PackFs
  | .makeTempBesideDest => { s with tmpExists := true }
  | .renameTempToDest => { destExists := true, tmpExists := false }
  | _ => s

/-- Run a sequence of steps. -/
def runPackOps (s : PackFs) (ops : List PackOp) : PackFs :=
  ops.foldl applyPackOp s

/-- The `finally` block: `os.remove(tmp_path)` when the temp file exists. -/
def packCleanup (s : PackFs) : PackFs := { s with tmpExists := false }

/-! ## Helper lemmas -/

/-- The `PackRun` a successful `compress_file` call returns, spelled out. -/
def packRunOf (codec : Codec) (hash : List Nat → String) (cached : Option Dict)
    (filename : String) (content : List Nat) (compression_level : String)
    (track_progress : Bool) : PackRun :=
  let params := build_compressor (levelFor compression_level) content.length track_progress
  { archive :=
      { magic := MAGIC
        version := VERSION
        manifest :=
          { original_filename := filename
            original_size := content.length
            compression_level := compression_level
            format := (fileSuffix filename).drop 1
            checksum := some (hash content)
            has_dict := cached.isSome }
        payload := codec.compressBytes (levelFor compression_level) params.enable_ldm cached content }
    params := params
    chunkSize := get_chunk_size content.length
    progress :=
      if track_progress then
        packProgress (get_chunk_size content.length) content 0 content.length
      else [] }

theorem compress_file_ok_iff {codec : Codec} {hash : List Nat → String}
    {cached : Option Dict} {filename : String} {content : List Nat}
    {lvl : String} {tp : Bool} {mx : Nat} {pk : PackRun} :
    compress_file codec hash cached filename content lvl tp mx = .ok pk ↔
      (fileSuffix filename ∈ SUPPORTED_FORMATS ∧ content.length ≠ 0 ∧
        content.length ≤ mx ∧ pk = packRunOf codec hash cached filename content lvl tp) := by
  by_cases h1 : fileSuffix filename ∈ SUPPORTED_FORMATS
  · by_cases h2 : content.length = 0
    · simp [compress_file, h1, h2]
    · by_cases h3 : content.length > mx
      · simp [compress_file, h1, h2, h3]
      · have hle : content.length ≤ mx := by omega
        simp [compress_file, packRunOf, h1, h2, h3, hle, eq_comm]
  · simp [compress_file, h1]

theorem levelFor_default {lvl : String}
    (h : lvl ∉ ["low", "medium", "high", "ultra"]) : levelFor lvl = 19 := by
  simp only [List.mem_cons, List.not_mem_nil, or_false, not_or] at h
  obtain ⟨h1, h2, h3, h4⟩ := h
  have e1 : (lvl == "low") = false := beq_eq_false_iff_ne.mpr h1
  have e2 : (lvl == "medium") = false := beq_eq_false_iff_ne.mpr h2
  have e3 : (lvl == "high") = false := beq_eq_false_iff_ne.mpr h3
  have e4 : (lvl == "ultra") = false := beq_eq_false_iff_ne.mpr h4
  simp [levelFor, COMPRESSION_LEVELS, List.lookup, e1, e2, e3, e4]

/-- Identity codec: a concrete `Codec` instance for witnesses. -/
def idCodec : Codec := ⟨fun _ _ _ x => x, fun _ x => some x⟩

/-- A concrete stand-in hash function for witnesses. -/
def hashLen : List Nat → String := fun l => toString l.length

/-! ## Claims -/

/-- C9: for every pack, the compressor is built by `_build_compressor` from the
numeric effort level 3/10/19/22 for the labels low/medium/high/ultra, and
long-distance matching is enabled iff the payload size exceeds the 1MB
(1,000,000 byte) threshold. -/
theorem compressor_effort_and_ldm (codec : Codec) (hash : List Nat → String)
    (cached : Option Dict) (filename : String) (content : List Nat) (lvl : String)
    (tp : Bool) (mx : Nat) (pk : PackRun)
    (h : compress_file codec hash cached filename content lvl tp mx = .ok pk) :
    (levelFor "low" = 3 ∧ levelFor "medium" = 10 ∧ levelFor "high" = 19 ∧
      levelFor "ultra" = 22) ∧
    pk.params = build_compressor (levelFor lvl) content.length tp ∧
    pk.params.level = levelFor lvl ∧
    (pk.params.enable_ldm = true ↔ 1000000 < content.length) := by
  obtain ⟨-, -, -, hpk⟩ := compress_file_ok_iff.mp h
  subst hpk
  refine ⟨⟨rfl, rfl, rfl, rfl⟩, rfl, rfl, ?_⟩
  simp [packRunOf, build_compressor]

theorem compressor_effort_and_ldm_witness :
    (levelFor "low" = 3 ∧ levelFor "medium" = 10 ∧ levelFor "high" = 19 ∧
      levelFor "ultra" = 22) ∧
    (packRunOf idCodec hashLen none "a.txt" [1, 2, 3] "low" false).params =
      build_compressor (levelFor "low") 3 false ∧
    (packRunOf idCodec hashLen none "a.txt" [1, 2, 3] "low" false).params.level =
      levelFor "low" ∧
    ((packRunOf idCodec hashLen none "a.txt" [1, 2, 3] "low" false).params.enable_ldm = true ↔
      1000000 < 3) :=
  compressor_effort_and_ldm idCodec hashLen none "a.txt" [1, 2, 3] "low" false 1000 _
    (compress_file_ok_iff.mpr ⟨by decide, by decide, by decide, rfl⟩)

/-- C10: an unrecognized compression-level label does not make `compress_file`
fail; the numeric level silently defaults to 19 (the mapping of "high") and the
label is recorded verbatim in the manifest. -/
theorem unknown_level_defaults (codec : Codec) (hash : List Nat → String)
    (cached : Option Dict) (filename : String) (content : List Nat) (lvl : String)
    (tp : Bool) (mx : Nat)
    (hext : fileSuffix filename ∈ SUPPORTED_FORMATS) (hne : content.length ≠ 0)
    (hmx : content.length ≤ mx) (hlvl : lvl ∉ ["low", "medium", "high", "ultra"]) :
    ∃ pk, compress_file codec hash cached filename content lvl tp mx = .ok pk ∧
      pk.params.level = 19 ∧ pk.archive.manifest.compression_level = lvl := by
  refine ⟨packRunOf codec hash cached filename content lvl tp,
    compress_file_ok_iff.mpr ⟨hext, hne, hmx, rfl⟩, ?_, rfl⟩
  simp [packRunOf, build_compressor, levelFor_default hlvl]

theorem unknown_level_defaults_witness :
    ∃ pk, compress_file idCodec hashLen none "a.txt" [1, 2, 3] "turbo" false 1000 = .ok pk ∧
      pk.params.level = 19 ∧ pk.archive.manifest.compression_level = "turbo" :=
  unknown_level_defaults idCodec hashLen none "a.txt" [1, 2, 3] "turbo" false 1000
    (by decide) (by decide) (by decide) (by decide)

theorem destExists_of_no_rename (ops : List PackOp) :
    ∀ s : PackFs, PackOp.renameTempToDest ∉ ops →
      (runPackOps s ops).destExists = s.destExists := by
  induction ops with
  | nil => intro s _; rfl
  | cons op rest ih =>
      intro s hmem
      rw [List.mem_cons, not_or] at hmem
      have hstep : (applyPackOp s op).destExists = s.destExists := by
        cases op <;> first | rfl | exact absurd rfl hmem.1
      calc (runPackOps s (op :: rest)).destExists
          = (runPackOps (applyPackOp s op) rest).destExists := rfl
        _ = (applyPackOp s op).destExists := ih _ hmem.2
        _ = s.destExists := hstep

theorem rename_not_mem_front (n : Nat) :
    PackOp.renameTempToDest ∉
      ([.checkFormat, .checkSizeLimits, .computeChecksum, .makeTempBesideDest,
          .writeHeader] ++ List.replicate n PackOp.writeChunk) := by
  intro hmem
  rw [List.mem_append] at hmem
  rcases hmem with h | h
  · simp at h
  · exact absurd (List.eq_of_mem_replicate h) (by decide)

theorem runPackOps_replicate_chunks (n : Nat) (s : PackFs) :
    runPackOps s (List.replicate n PackOp.writeChunk) = s := by
  induction n with
  | zero => rfl
  | succ k ih =>
      rw [List.replicate_succ]
      exact ih

/-- C2: the destination path is created only by the final rename: no other
step changes it, terminating before any step `k` preceding the rename leaves
nothing at the destination, and the `finally` cleanup removes the temp file;
the complete run ends with the destination present and the temp file gone. -/
theorem pack_atomic_commit (n k : Nat) (hk : k < (packOps n).length) :
    (runPackOps ⟨false, false⟩ ((packOps n).take k)).destExists = false ∧
    packCleanup (runPackOps ⟨false, false⟩ ((packOps n).take k)) = ⟨false, false⟩ ∧
    (∀ (s : PackFs) (op : PackOp), op ≠ .renameTempToDest →
      (applyPackOp s op).destExists = s.destExists) ∧
    runPackOps ⟨false, false⟩ (packOps n) = ⟨true, false⟩ := by
  set front : List PackOp :=
    [.checkFormat, .checkSizeLimits, .computeChecksum, .makeTempBesideDest,
      .writeHeader] ++ List.replicate n PackOp.writeChunk with hfront
  have hsplit : packOps n = front ++ [.renameTempToDest] := by
    simp [packOps, hfront]
  have hlen : (packOps n).length = front.length + 1 := by
    rw [hsplit, List.length_append, List.length_cons, List.length_nil]
  have hkle : k ≤ front.length := by omega
  have htake : (packOps n).take k = front.take k := by
    rw [hsplit, List.take_append_of_le_length hkle]
  have hnomem : PackOp.renameTempToDest ∉ (packOps n).take k := by
    rw [htake]
    intro hmem
    exact rename_not_mem_front n (List.mem_of_mem_take hmem)
  have hdest : (runPackOps ⟨false, false⟩ ((packOps n).take k)).destExists = false :=
    destExists_of_no_rename _ _ hnomem
  refine ⟨hdest, ?_, ?_, ?_⟩
  · have : packCleanup (runPackOps ⟨false, false⟩ ((packOps n).take k)) =
        ⟨(runPackOps ⟨false, false⟩ ((packOps n).take k)).destExists, false⟩ := rfl
    rw [this, hdest]
  · intro s op hop
    cases op <;> first | rfl | exact absurd rfl hop
  · have happ : ∀ (s : PackFs) (a b : List PackOp),
        runPackOps s (a ++ b) = runPackOps (runPackOps s a) b := by
      intro s a b
      simp [runPackOps, List.foldl_append]
    rw [hsplit, hfront, happ, happ]
    rw [show runPackOps ⟨false, false⟩ [PackOp.checkFormat, .checkSizeLimits,
      .computeChecksum, .makeTempBesideDest, .writeHeader] = ⟨false, true⟩ from rfl]
    rw [runPackOps_replicate_chunks]
    rfl

theorem pack_atomic_commit_witness :
    6 < (packOps 2).length ∧
    ((runPackOps ⟨false, false⟩ ((packOps 2).take 6)).destExists = false ∧
    packCleanup (runPackOps ⟨false, false⟩ ((packOps 2).take 6)) = ⟨false, false⟩ ∧
    (∀ (s : PackFs) (op : PackOp), op ≠ .renameTempToDest →
      (applyPackOp s op).destExists = s.destExists) ∧
    runPackOps ⟨false, false⟩ (packOps 2) = ⟨true, false⟩) :=
  ⟨by decide, pack_atomic_commit 2 6 (by decide)⟩

theorem retryFrom_all_transient (attempt : Nat → AttemptResult) (err : Nat → String)
    (maxR : Nat) :
    ∀ (fuel idx : Nat) (d : ℚ), maxR - idx = fuel → 1 ≤ idx → idx ≤ maxR →
      (∀ i, idx ≤ i → i ≤ maxR → attempt i = .otherError (err i)) →
      retryFrom attempt maxR idx d =
        ⟨.raisedLast (err maxR), (List.range (maxR - idx)).map (fun j => d * 2 ^ j),
          maxR - idx + 1⟩ := by
  intro fuel
  induction fuel with
  | zero =>
      intro idx d hfuel h1 hle hall
      have hidx : idx = maxR := by omega
      subst hidx
      simp [retryFrom, hall idx le_rfl le_rfl]
  | succ m ih =>
      intro idx d hfuel h1 hle hall
      have hlt : idx < maxR := by omega
      have hrec := ih (idx + 1) (d * 2) (by omega) (by omega) (by omega)
        (fun i hi1 hi2 => hall i (by omega) hi2)
      rw [retryFrom, hall idx le_rfl hle]
      simp only [dif_pos hlt, hrec]
      simp only [RetryRun.mk.injEq]
      refine ⟨by trivial, ?_, by omega⟩
      rw [show maxR - idx = (maxR - (idx + 1)) + 1 from by omega,
        List.range_succ_eq_map, List.map_cons, List.map_map]
      simp only [pow_zero, mul_one, List.cons.injEq, true_and]
      congr 1
      funext j
      simp [pow_succ]
      ring

/-- C5: the retry wrapper re-raises `ValueError` (the permanent class:
unsupported format, oversized, empty) at once with no further attempts and no
sleeps, classifying by exception kind only; any other failure is retried
within the total attempt budget `max_retries` (default 3), sleeping the base
delay before each retry and doubling it each time, and after the budget is
exhausted the last transient error is raised. -/
theorem retry_classification_and_backoff (attempt : Nat → AttemptResult)
    (maxR : Nat) (d : ℚ) (hmax : 1 ≤ maxR) :
    (∀ m, attempt 1 = .valueError m →
      compress_with_retry attempt maxR d = ⟨.raisedValueError m, [], 1⟩) ∧
    (∀ err : Nat → String, (∀ i, 1 ≤ i → i ≤ maxR → attempt i = .otherError (err i)) →
      compress_with_retry attempt maxR d =
        ⟨.raisedLast (err maxR), (List.range (maxR - 1)).map (fun j => d * 2 ^ j),
          maxR⟩) := by
  constructor
  · intro m hm
    rw [compress_with_retry, if_neg (by omega), retryFrom, hm]
  · intro err hall
    rw [compress_with_retry, if_neg (by omega),
      retryFrom_all_transient attempt err maxR (maxR - 1) 1 d (by omega) le_rfl hmax hall]
    simp only [RetryRun.mk.injEq]
    exact ⟨by trivial, by trivial, by omega⟩

/-- A job that fails transiently on every attempt, for the witness. -/
def attemptFail : Nat → AttemptResult := fun _ => .otherError "disk hiccup"

theorem retry_classification_and_backoff_witness :
    compress_with_retry attemptFail 3 1 = ⟨.raisedLast "disk hiccup", [1, 2], 3⟩ := by
  rw [(retry_classification_and_backoff attemptFail 3 1 (by norm_num)).2
    (fun _ => "disk hiccup") (fun i _ _ => rfl)]
  simp only [RetryRun.mk.injEq, List.range_succ, List.range_zero]
  norm_num

/-- The failure entries the drain loop records: one `(path, error)` record
per job whose future raised. -/
def failuresOf (jobs : List (String × Except String BatchSuccess)) : List BatchFailure :=
  jobs.filterMap (fun j => match j.2 with
    | .error e => some ⟨j.1, e⟩
    | .ok _ => none)

/-- The success records the drain loop keeps, in completion order. -/
def successesOf (jobs : List (String × Except String BatchSuccess)) : List BatchSuccess :=
  jobs.filterMap (fun j => j.2.toOption)

theorem batch_drain_eq (jobs : List (String × Except String BatchSuccess)) :
    ∀ rs fs, batch_drain jobs rs fs = (rs ++ successesOf jobs, fs ++ failuresOf jobs) := by
  induction jobs with
  | nil => intro rs fs; simp [batch_drain, successesOf, failuresOf]
  | cons j rest ih =>
      intro rs fs
      obtain ⟨p, out⟩ := j
      cases out with
      | ok r =>
          rw [show batch_drain ((p, Except.ok r) :: rest) rs fs =
            batch_drain rest (rs ++ [r]) fs from rfl, ih]
          simp [successesOf, failuresOf, List.filterMap_cons, Except.toOption]
      | error e =>
          rw [show batch_drain ((p, Except.error e) :: rest) rs fs =
            batch_drain rest rs (fs ++ [⟨p, e⟩]) from rfl, ih]
          simp [successesOf, failuresOf, List.filterMap_cons, Except.toOption]

theorem batch_counts (jobs : List (String × Except String BatchSuccess)) :
    (successesOf jobs).length + (failuresOf jobs).length = jobs.length := by
  induction jobs with
  | nil => rfl
  | cons j rest ih =>
      obtain ⟨p, out⟩ := j
      cases out <;>
        simp only [successesOf, failuresOf, List.filterMap_cons, Except.toOption,
          List.length_cons] at ih ⊢ <;> omega

/-- C6: the batch summary's success flag is true iff the failure list is
empty; every job exception is recorded as a `(path, error)` failure entry in
the failure list instead of escaping; the summary covers every job; and the
batch call itself errors exactly when the input directory does not exist. -/
theorem batch_failure_aggregation (jobs : List (String × Except String BatchSuccess)) :
    ((run_batch jobs).success = true ↔ (run_batch jobs).failures = []) ∧
    (run_batch jobs).failures = failuresOf jobs ∧
    (run_batch jobs).results = successesOf jobs ∧
    (∀ p e, (p, Except.error e) ∈ jobs →
      (⟨p, e⟩ : BatchFailure) ∈ (run_batch jobs).failures) ∧
    (run_batch jobs).total = jobs.length ∧
    (∀ dirExists : Bool,
      (∃ s, compress_directory dirExists jobs = .ok s) ↔ dirExists = true) ∧
    compress_directory true jobs = .ok (run_batch jobs) := by
  have hrun : run_batch jobs = build_summary (successesOf jobs) (failuresOf jobs) := by
    rw [run_batch, batch_drain_eq]
    simp
  refine ⟨?_, ?_, ?_, ?_, ?_, ?_, ?_⟩
  · rw [hrun]
    show (decide ((failuresOf jobs).length = 0)) = true ↔ _
    simp [build_summary, List.length_eq_zero]
  · rw [hrun]; rfl
  · rw [hrun]; rfl
  · intro p e hmem
    rw [hrun]
    show (⟨p, e⟩ : BatchFailure) ∈ failuresOf jobs
    exact List.mem_filterMap.mpr ⟨(p, Except.error e), hmem, rfl⟩
  · rw [hrun]
    show (successesOf jobs).length + (failuresOf jobs).length = jobs.length
    exact batch_counts jobs
  · intro dirExists
    cases dirExists <;> simp [compress_directory]
  · rfl

theorem batch_failure_aggregation_witness :
    (⟨"b.txt", "boom"⟩ : BatchFailure) ∈
      (run_batch [("a.txt", Except.ok ⟨"a.txt", 10, 4⟩),
        ("b.txt", Except.error "boom")]).failures :=
  (batch_failure_aggregation
      [("a.txt", Except.ok ⟨"a.txt", 10, 4⟩), ("b.txt", Except.error "boom")]).2.2.2.1
    "b.txt" "boom" (by simp)

/-- C3: when the manifest records a checksum, the restored bytes are re-hashed
and compared: a mismatch raises the integrity `ValueError`, the `finally`
block deletes the temp file and nothing appears at the final path, and no
rename happens; on a match the rename is the last event, strictly after
verification.  When no checksum is recorded the integrity check is skipped
with a warning and the file is renamed immediately. -/
theorem unpack_integrity_gate (decode : Option Dict → List Nat → Option (List Nat))
    (hash : List Nat → String) (cached : Option Dict) (a : Archive)
    (restored : List Nat)
    (hmagic : a.magic = MAGIC ∨ a.magic = MAGIC_VISUAL)
    (hdec : decode (dictFor (build_decompressor a.manifest.has_dict cached) cached)
      a.payload = some restored) :
    (∀ stored, a.manifest.checksum = some stored → hash restored ≠ stored →
      (unpack decode hash cached a).result = .error .checksumMismatch ∧
      (unpack decode hash cached a).fs = ⟨false, false⟩ ∧
      UEvent.renamedToFinal ∉ (unpack decode hash cached a).events) ∧
    (∀ stored, a.manifest.checksum = some stored → hash restored = stored →
      (unpack decode hash cached a).events =
        [.usedDecompressor (build_decompressor a.manifest.has_dict cached), .madeTemp,
          .verifyOk, .renamedToFinal] ∧
      (unpack decode hash cached a).result = .ok restored ∧
      (unpack decode hash cached a).fs = ⟨false, true⟩) ∧
    (a.manifest.checksum = none →
      (unpack decode hash cached a).events =
        [.usedDecompressor (build_decompressor a.manifest.has_dict cached), .madeTemp,
          .warnNoChecksum, .renamedToFinal] ∧
      (unpack decode hash cached a).result = .ok restored ∧
      (unpack decode hash cached a).fs = ⟨false, true⟩) := by
  have hnot : ¬(a.magic ≠ MAGIC ∧ a.magic ≠ MAGIC_VISUAL) := by
    rcases hmagic with h | h <;> simp [h]
  refine ⟨?_, ?_, ?_⟩
  · intro stored hst hne
    simp only [unpack, if_neg hnot, hdec, hst, if_neg hne]
    exact ⟨by trivial, by trivial, by simp⟩
  · intro stored hst heq
    simp only [unpack, if_neg hnot, hdec, hst, if_pos heq]
    exact ⟨by trivial, by trivial, by trivial⟩
  · intro hst
    simp only [unpack, if_neg hnot, hdec, hst]
    exact ⟨by trivial, by trivial, by trivial⟩

/-- A concrete well-formed archive whose recorded checksum matches. -/
def archW : Archive := ⟨MAGIC, 1, ⟨"a.txt", 3, "high", "txt", some "3", false⟩, [1, 2, 3]⟩

theorem unpack_integrity_gate_witness :
    (unpack idCodec.decompressBytes hashLen none archW).events =
      [.usedDecompressor (build_decompressor archW.manifest.has_dict none), .madeTemp,
        .verifyOk, .renamedToFinal] ∧
    (unpack idCodec.decompressBytes hashLen none archW).result = .ok [1, 2, 3] ∧
    (unpack idCodec.decompressBytes hashLen none archW).fs = ⟨false, true⟩ :=
  (unpack_integrity_gate idCodec.decompressBytes hashLen none archW [1, 2, 3]
    (Or.inl rfl) rfl).2.1 "3" rfl rfl

/-- A concrete archive whose manifest demands a dictionary (`has_dict = true`). -/
def archD : Archive := ⟨MAGIC, 1, ⟨"a.txt", 3, "high", "txt", none, true⟩, [1, 2, 3]⟩

/-- C4 as stated is false: with `has_dict = true` and no cached dictionary the
unpacker does not fail with a missing-dictionary error — here it decompresses
and succeeds. -/
theorem missing_dictionary_counterexample :
    archD.manifest.has_dict = true ∧
    (unpack idCodec.decompressBytes hashLen none archD).result = .ok [1, 2, 3] ∧
    (unpack idCodec.decompressBytes hashLen none archD).result ≠
      .error .missingDictionary := by
  refine ⟨rfl, rfl, fun h => ?_⟩
  rw [show (unpack idCodec.decompressBytes hashLen none archD).result =
    Except.ok [1, 2, 3] from rfl] at h
  exact Except.noConfusion h

/-- C4 amended: when the manifest has `has_dict = true` but no dictionary is
cached, `_build_decompressor` silently returns a plain, dictionary-less
decompressor and `unpack` proceeds to decompress the payload with it; no
`MissingDictionaryError` is ever raised (such an error class does not exist in
the code), and any failure surfaces only as a zstd decode error or checksum
mismatch. -/
theorem missing_dictionary_fallback (decode : Option Dict → List Nat → Option (List Nat))
    (hash : List Nat → String) (cached : Option Dict) (a : Archive)
    (hdict : a.manifest.has_dict = true) (hnone : cached = none) :
    build_decompressor a.manifest.has_dict cached = .plain ∧
    (unpack decode hash cached a).result ≠ .error .missingDictionary ∧
    ((a.magic = MAGIC ∨ a.magic = MAGIC_VISUAL) →
      UEvent.usedDecompressor DecompKind.plain ∈ (unpack decode hash cached a).events) := by
  subst hnone
  have hbd : build_decompressor a.manifest.has_dict none = .plain := by
    simp [build_decompressor]
  refine ⟨hbd, ?_, ?_⟩
  · unfold unpack
    by_cases hm : a.magic ≠ MAGIC ∧ a.magic ≠ MAGIC_VISUAL
    · rw [if_pos hm]
      simp
    · rw [if_neg hm]
      cases hd : decode (dictFor (build_decompressor a.manifest.has_dict none) none)
          a.payload with
      | none => simp [hd]
      | some r =>
          simp only [hd]
          cases hc : a.manifest.checksum with
          | none => simp [hc]
          | some stored =>
              simp only [hc]
              by_cases hh : hash r = stored
              · rw [if_pos hh]
                simp
              · rw [if_neg hh]
                simp
  · intro hmagic
    have hm : ¬(a.magic ≠ MAGIC ∧ a.magic ≠ MAGIC_VISUAL) := by
      rcases hmagic with h | h <;> simp [h]
    unfold unpack
    rw [if_neg hm]
    cases hd : decode (dictFor (build_decompressor a.manifest.has_dict none) none)
        a.payload with
    | none =>
        rw [hbd] at hd
        simp [hbd, hd]
    | some r =>
        simp only [hd]
        cases hc : a.manifest.checksum with
        | none => simp [hc, hbd]
        | some stored =>
            simp only [hc]
            by_cases hh : hash r = stored
            · rw [if_pos hh]
              simp [hbd]
            · rw [if_neg hh]
              simp [hbd]

theorem missing_dictionary_fallback_witness :
    build_decompressor archD.manifest.has_dict none = .plain ∧
    (unpack idCodec.decompressBytes hashLen none archD).result ≠
      .error .missingDictionary ∧
    ((archD.magic = MAGIC ∨ archD.magic = MAGIC_VISUAL) →
      UEvent.usedDecompressor DecompKind.plain ∈
        (unpack idCodec.decompressBytes hashLen none archD).events) :=
  missing_dictionary_fallback idCodec.decompressBytes hashLen none archD rfl rfl

theorem dict_roundtrip (cached : Option Dict) :
    dictFor (build_decompressor cached.isSome cached) cached = cached := by
  cases cached <;> simp [build_decompressor, dictFor]

/-- C1: for every supported, non-empty source at or under the size ceiling,
packing records `some (hash content)` in the manifest and unpacking the
resulting archive (with the same cached dictionary and a lossless zstd codec)
restores the content byte-for-byte: verification recomputes the same hash,
passes, and the restored file appears at the final path. -/
theorem pack_unpack_roundtrip (codec : Codec) (hash : List Nat → String)
    (cached : Option Dict) (filename : String) (content : List Nat) (lvl : String)
    (tp : Bool) (mx : Nat)
    (hext : fileSuffix filename ∈ SUPPORTED_FORMATS) (hne : content.length ≠ 0)
    (hmx : content.length ≤ mx)
    (hcodec : ∀ level ldm, codec.decompressBytes cached
      (codec.compressBytes level ldm cached content) = some content) :
    ∃ pk, compress_file codec hash cached filename content lvl tp mx = .ok pk ∧
      pk.archive.manifest.checksum = some (hash content) ∧
      (unpack codec.decompressBytes hash cached pk.archive).result = .ok content ∧
      (∀ r, (unpack codec.decompressBytes hash cached pk.archive).result = .ok r →
        pk.archive.manifest.checksum = some (hash r)) ∧
      (unpack codec.decompressBytes hash cached pk.archive).fs.finalExists = true := by
  refine ⟨packRunOf codec hash cached filename content lvl tp,
    compress_file_ok_iff.mpr ⟨hext, hne, hmx, rfl⟩, rfl, ?_⟩
  have hnot : ¬((packRunOf codec hash cached filename content lvl tp).archive.magic ≠ MAGIC ∧
      (packRunOf codec hash cached filename content lvl tp).archive.magic ≠ MAGIC_VISUAL) :=
    fun hc => hc.1 rfl
  have hdec : codec.decompressBytes
      (dictFor (build_decompressor
        (packRunOf codec hash cached filename content lvl tp).archive.manifest.has_dict
        cached) cached)
      (packRunOf codec hash cached filename content lvl tp).archive.payload =
      some content := by
    rw [show (packRunOf codec hash cached filename content lvl tp).archive.manifest.has_dict
      = cached.isSome from rfl, dict_roundtrip]
    exact hcodec _ _
  have hst : (packRunOf codec hash cached filename content lvl tp).archive.manifest.checksum
      = some (hash content) := rfl
  have hrun : (unpack codec.decompressBytes hash cached
      (packRunOf codec hash cached filename content lvl tp).archive).result = .ok content ∧
      (unpack codec.decompressBytes hash cached
        (packRunOf codec hash cached filename content lvl tp).archive).fs.finalExists = true := by
    simp only [unpack, if_neg hnot, hdec, hst, if_pos rfl]
    exact ⟨by trivial, by trivial⟩
  refine ⟨hrun.1, ?_, hrun.2⟩
  intro r hr
  rw [hrun.1] at hr
  obtain rfl : content = r := by
    exact (Except.ok.injEq _ _).mp hr
  exact hst

theorem pack_unpack_roundtrip_witness :
    ∃ pk, compress_file idCodec hashLen none "a.txt" [1, 2, 3] "high" true 1000 = .ok pk ∧
      pk.archive.manifest.checksum = some (hashLen [1, 2, 3]) ∧
      (unpack idCodec.decompressBytes hashLen none pk.archive).result = .ok [1, 2, 3] ∧
      (∀ r, (unpack idCodec.decompressBytes hashLen none pk.archive).result = .ok r →
        pk.archive.manifest.checksum = some (hashLen r)) ∧
      (unpack idCodec.decompressBytes hashLen none pk.archive).fs.finalExists = true :=
  pack_unpack_roundtrip idCodec hashLen none "a.txt" [1, 2, 3] "high" true 1000
    (by decide) (by decide) (by decide) (fun _ _ => rfl)

/-- The value `struct.unpack('>L', ...)` reads back from four big-endian
bytes (the unpacker side at unpacker.py line 53). -/
def be32val (bs : List Nat) : Nat :=
  match bs with
  | [b0, b1, b2, b3] => ((b0 * 256 + b1) * 256 + b2) * 256 + b3
  | _ => 0

theorem be32val_be32 {n : Nat} (h : n < 4294967296) : be32val (be32 n) = n := by
  simp only [be32, be32val]
  omega

theorem toList_append (s t : String) : (s ++ t).toList = s.toList ++ t.toList := by
  simp [String.toList, String.data_append]

theorem split_shift {α : Type} (X : List α) {Y K : List α}
    (h : ∃ u v, Y = u ++ (K ++ v)) : ∃ u v, X ++ Y = u ++ (K ++ v) := by
  obtain ⟨u, v, rfl⟩ := h
  exact ⟨X ++ u, v, by simp⟩

theorem split_base {α : Type} (K Y : List α) : ∃ u v, K ++ Y = u ++ (K ++ v) :=
  ⟨[], Y, by simp⟩

theorem manifest_fields_present (m : Manifest) :
    ∀ key ∈ ["\"original_filename\"", "\"original_size\"", "\"compression_level\"",
        "\"format\"", "\"checksum\"", "\"has_dict\""],
      ∃ u v, (encodeManifest m).toList = u ++ key.toList ++ v := by
  intro key hk
  fin_cases hk
  · simp only [encodeManifest, toList_append, List.append_assoc]
    apply split_shift
    exact split_base _ _
  · simp only [encodeManifest, toList_append, List.append_assoc]
    iterate 5 apply split_shift
    exact split_base _ _
  · simp only [encodeManifest, toList_append, List.append_assoc]
    iterate 9 apply split_shift
    exact split_base _ _
  · simp only [encodeManifest, toList_append, List.append_assoc]
    iterate 13 apply split_shift
    exact split_base _ _
  · simp only [encodeManifest, toList_append, List.append_assoc]
    iterate 17 apply split_shift
    exact split_base _ _
  · simp only [encodeManifest, toList_append, List.append_assoc]
    iterate 21 apply split_shift
    exact split_base _ _

/-- C7: every archive written by pack serializes as a 9-byte fixed header —
the 4-byte `ZPKG` tag, the version byte 1, and a 4-byte big-endian unsigned
manifest length `L` — followed by the `L` uncompressed UTF-8 JSON manifest
bytes carrying at least the six required fields, followed by the compressed
payload to end of file. -/
theorem archive_layout (codec : Codec) (hash : List Nat → String) (cached : Option Dict)
    (filename : String) (content : List Nat) (lvl : String) (tp : Bool) (mx : Nat)
    (pk : PackRun)
    (h : compress_file codec hash cached filename content lvl tp mx = .ok pk) :
    serializeArchive pk.archive =
      MAGIC ++ [VERSION] ++ be32 (manifestBytes pk.archive.manifest).length
        ++ manifestBytes pk.archive.manifest ++ pk.archive.payload ∧
    MAGIC.length = 4 ∧ [VERSION] = [1] ∧
    (be32 (manifestBytes pk.archive.manifest).length).length = 4 ∧
    (MAGIC ++ [VERSION] ++ be32 (manifestBytes pk.archive.manifest).length).length = 9 ∧
    ((manifestBytes pk.archive.manifest).length < 4294967296 →
      be32val (be32 (manifestBytes pk.archive.manifest).length) =
        (manifestBytes pk.archive.manifest).length) ∧
    manifestBytes pk.archive.manifest = utf8Bytes (encodeManifest pk.archive.manifest) ∧
    (∀ key ∈ ["\"original_filename\"", "\"original_size\"", "\"compression_level\"",
        "\"format\"", "\"checksum\"", "\"has_dict\""],
      ∃ u v, (encodeManifest pk.archive.manifest).toList = u ++ key.toList ++ v) := by
  obtain ⟨-, -, -, hpk⟩ := compress_file_ok_iff.mp h
  subst hpk
  refine ⟨rfl, rfl, rfl, by simp [be32], by simp [MAGIC, be32], fun hlt => be32val_be32 hlt,
    rfl, manifest_fields_present _⟩

theorem archive_layout_witness :
    (serializeArchive (packRunOf idCodec hashLen none "a.txt" [1, 2, 3] "high" true).archive =
      MAGIC ++ [VERSION] ++
        be32 (manifestBytes
          (packRunOf idCodec hashLen none "a.txt" [1, 2, 3] "high" true).archive.manifest).length
        ++ manifestBytes
          (packRunOf idCodec hashLen none "a.txt" [1, 2, 3] "high" true).archive.manifest
        ++ (packRunOf idCodec hashLen none "a.txt" [1, 2, 3] "high" true).archive.payload) ∧
    (∀ key ∈ ["\"original_filename\"", "\"original_size\"", "\"compression_level\"",
        "\"format\"", "\"checksum\"", "\"has_dict\""],
      ∃ u v, (encodeManifest
        (packRunOf idCodec hashLen none "a.txt" [1, 2, 3] "high" true).archive.manifest).toList =
          u ++ key.toList ++ v) := by
  have h := archive_layout idCodec hashLen none "a.txt" [1, 2, 3] "high" true 1000
    (packRunOf idCodec hashLen none "a.txt" [1, 2, 3] "high" true)
    (compress_file_ok_iff.mpr ⟨by decide, by decide, by decide, rfl⟩)
  exact ⟨h.1, h.2.2.2.2.2.2.2⟩

theorem packProgress_eq (cs : Nat) (hcs : 0 < cs) :
    ∀ (n : Nat) (l : List Nat) (acc total : Nat), l.length ≤ n →
      packProgress cs l acc total =
        (List.range ((l.length + cs - 1) / cs)).map
          (fun i => (acc + min ((i + 1) * cs) l.length, total)) := by
  intro n
  induction n with
  | zero =>
      intro l acc total hlen
      have hl : l = [] := List.eq_nil_of_length_eq_zero (by omega)
      subst hl
      rw [packProgress, dif_pos (Or.inl rfl)]
      rw [show (List.length ([] : List Nat) + cs - 1) / cs = 0 from
        Nat.div_eq_of_lt (by simp; omega)]
      rfl
  | succ m ih =>
      intro l acc total hlen
      by_cases hl : l = []
      · subst hl
        rw [packProgress, dif_pos (Or.inl rfl)]
        rw [show (List.length ([] : List Nat) + cs - 1) / cs = 0 from
          Nat.div_eq_of_lt (by simp; omega)]
        rfl
      · have hL : 0 < l.length := List.length_pos.mpr hl
        rw [packProgress, dif_neg (by push_neg; exact ⟨hl, by omega⟩)]
        have hdrop : (l.drop cs).length = l.length - cs := by
          simp
        have hIH := ih (l.drop cs) (acc + min cs l.length) total (by omega)
        rw [hdrop] at hIH
        rw [hIH]
        have hzero : l.length ≤ cs → (l.length - cs + cs - 1) / cs = 0 := by
          intro hc
          exact Nat.div_eq_of_lt (by omega)
        have hN : (l.length + cs - 1) / cs = (l.length - cs + cs - 1) / cs + 1 := by
          by_cases hc : l.length ≤ cs
          · rw [hzero hc]
            rw [show l.length + cs - 1 = (l.length - 1) + cs from by omega,
              Nat.add_div_right _ hcs, Nat.div_eq_of_lt (by omega)]
          · rw [show l.length + cs - 1 = (l.length - cs + cs - 1) + cs from by omega,
              Nat.add_div_right _ hcs]
        rw [hN, List.range_succ_eq_map, List.map_cons, List.map_map]
        congr 1
        · simp
        · apply List.map_congr_left
          intro i hi
          have hM : 0 < (l.length - cs + cs - 1) / cs := by
            rcases List.mem_range.mp hi with hlt
            omega
          have hcl : cs < l.length := by
            by_contra hc
            rw [hzero (by omega)] at hM
            omega
          simp only [Function.comp_apply]
          have hmul : (i + 1 + 1) * cs = (i + 1) * cs + cs := by ring
          rw [hmul]
          generalize (i + 1) * cs = a
          have : min cs l.length = cs := by omega
          rw [this]
          refine Prod.ext ?_ rfl
          simp only []
          omega

/-- C8: the pack streaming loop reads chunks of 64KB for inputs below 10MB
(decimal, as in the code), 512KB for inputs of 10MB up to 100MB, and 1MB
above that; and the progress callback fires once per chunk with the
cumulative byte count and the total size. -/
theorem chunk_size_and_progress (codec : Codec) (hash : List Nat → String)
    (cached : Option Dict) (filename : String) (content : List Nat) (lvl : String)
    (mx : Nat) (pk : PackRun)
    (h : compress_file codec hash cached filename content lvl true mx = .ok pk) :
    pk.chunkSize = get_chunk_size content.length ∧
    (content.length < 10000000 → pk.chunkSize = 65536) ∧
    (10000000 ≤ content.length → content.length < 100000000 → pk.chunkSize = 524288) ∧
    (100000000 ≤ content.length → pk.chunkSize = 1048576) ∧
    pk.progress = (List.range ((content.length + pk.chunkSize - 1) / pk.chunkSize)).map
      (fun i => (min ((i + 1) * pk.chunkSize) content.length, content.length)) := by
  obtain ⟨-, -, -, hpk⟩ := compress_file_ok_iff.mp h
  subst hpk
  have hck : (packRunOf codec hash cached filename content lvl true).chunkSize =
      get_chunk_size content.length := rfl
  refine ⟨hck, ?_, ?_, ?_, ?_⟩
  · intro hlt
    rw [hck, get_chunk_size, if_pos hlt]
  · intro hge hlt
    rw [hck, get_chunk_size, if_neg (by omega), if_pos hlt]
  · intro hge
    rw [hck, get_chunk_size, if_neg (by omega), if_neg (by omega)]
  · have hcs : 0 < get_chunk_size content.length := by
      rw [get_chunk_size]
      split
      · omega
      · split <;> omega
    have hpp := packProgress_eq (get_chunk_size content.length) hcs content.length
      content 0 content.length le_rfl
    rw [hck]
    show packProgress (get_chunk_size content.length) content 0 content.length = _
    rw [hpp]
    simp

theorem chunk_size_and_progress_witness :
    (packRunOf idCodec hashLen none "a.txt" [1, 2, 3] "high" true).chunkSize =
      get_chunk_size 3 ∧
    (packRunOf idCodec hashLen none "a.txt" [1, 2, 3] "high" true).chunkSize = 65536 ∧
    (packRunOf idCodec hashLen none "a.txt" [1, 2, 3] "high" true).progress = [(3, 3)] := by
  have h := chunk_size_and_progress idCodec hashLen none "a.txt" [1, 2, 3] "high" 1000
    (packRunOf idCodec hashLen none "a.txt" [1, 2, 3] "high" true)
    (compress_file_ok_iff.mpr ⟨by decide, by decide, by decide, rfl⟩)
  refine ⟨h.1, h.2.1 (by norm_num), ?_⟩
  rw [h.2.2.2.2]
  decide

end Zypher
